import Mathlib

set_option autoImplicit false

namespace MongoStore

/-- JavaScript-like values as they flow through the store: strings, numbers,
booleans, null, undefined, mongodb ObjectId values (objects carrying a
truthy bsontype field), mongodb Binary values, arrays and plain objects. -/
inductive JSValue where
  | str : String → JSValue
  | num : Int → JSValue
  | bool : Bool → JSValue
  | null : JSValue
  | undefined : JSValue
  | oid : String → JSValue
  | binary : JSValue → JSValue
  | arr : List JSValue → JSValue
  | obj : List (String × JSValue) → JSValue

/-- Document model: a JS object given as an ordered association list. -/
abbrev Doc := List (String × JSValue)

/-- Property lookup on a JS object, first-match semantics. -/
def jsGet : Doc → String → Option JSValue
  | [], _ => none
  | (k1, v) :: rest, k => if k1 = k then some v else jsGet rest k

mutual

/-- Structural value equality, modelling the equality comparison the store
applies between a query value and a document field. -/
def jsValueEq : JSValue → JSValue → Bool
  | .str a, .str b => a = b
  | .num a, .num b => a = b
  | .bool a, .bool b => a = b
  | .null, .null => true
  | .undefined, .undefined => true
  | .oid a, .oid b => a = b
  | .binary a, .binary b => jsValueEq a b
  | .arr a, .arr b => jsListEq a b
  | .obj a, .obj b => jsEntriesEq a b
  | _, _ => false

def jsListEq : List JSValue → List JSValue → Bool
  | [], [] => true
  | a :: as, b :: bs => jsValueEq a b && jsListEq as bs
  | _, _ => false

def jsEntriesEq : List (String × JSValue) → List (String × JSValue) → Bool
  | [], [] => true
  | (ka, va) :: as, (kb, vb) :: bs => ka = kb && jsValueEq va vb && jsEntriesEq as bs
  | _, _ => false

end

/-- JavaScript truthiness of a value: false, 0, the empty string, null and
undefined are falsy; every other value is truthy. -/
def jsTruthy : JSValue → Bool
  | .str s => s ≠ ""
  | .num n => n ≠ 0
  | .bool b => b
  | .null => false
  | .undefined => false
  | _ => true

/-- Truthiness of an optional property read: a missing property reads as
undefined, which is falsy. -/
def jsTruthyOpt : Option JSValue → Bool
  | some v => jsTruthy v
  | none => false

mutual

/-- JavaScript string coercion, as performed by string concatenation when the
source builds regular-expression patterns from filter values. -/
def jsToString : JSValue → String
  | .str s => s
  | .num n => toString n
  | .bool b => if b then "true" else "false"
  | .null => "null"
  | .undefined => "undefined"
  | .oid s => s
  | .binary b => jsToString b
  | .arr l => jsListToString l
  | .obj _ => "[object Object]"

def jsListToString : List JSValue → String
  | [] => ""
  | [v] => jsToString v
  | v :: rest => jsToString v ++ "," ++ jsListToString rest

end

/-- Whether a value is the JavaScript undefined value. -/
def isUndefinedVal : JSValue → Bool
  | .undefined => true
  | _ => false

/-- Whether a value is an array, as tested by Array.isArray. -/
def isArr : JSValue → Bool
  | .arr _ => true
  | _ => false

/-- Embeds lodash omitBy with the predicate (value === undefined): keeps
exactly the properties whose value is defined. -/
def omitUndef (d : Doc) : Doc :=
  d.filter (fun kv => !isUndefinedVal kv.2)

/-- Property assignment on a JS object: overwrite the property when the key is
present, append it otherwise. -/
def jsSet : Doc → String → JSValue → Doc
  | [], k, v => [(k, v)]
  | (k1, v1) :: rest, k, v =>
      if k1 = k then (k, v) :: rest else (k1, v1) :: jsSet rest k v

/-- Property removal on a JS object (the delete operator). -/
def removeKey (d : Doc) (k : String) : Doc :=
  d.filter (fun kv => kv.1 ≠ k)

/-- One filter element of a processed filter: an optional operator together
with a value. An absent operator is modelled as none; the source also treats
the empty string as absent because it tests plain falsiness. -/
structure FilterElement where
  operator : Option String
  value : JSValue

/-- Whether the operator field is falsy in JavaScript, which is how the
source tests for the absence of an operator. -/
def opAbsent : Option String → Bool
  | none => true
  | some s => s = ""

/-- A native mongo leaf expression as produced by the operator table: the raw
value itself, a dollar-in / dollar-gt / dollar-lt wrapper object, a regular
expression with its pattern and case-insensitivity flag, or the JavaScript
undefined produced when the operator has no table entry. -/
inductive MongoExpr where
  | raw : JSValue → MongoExpr
  | inList : JSValue → MongoExpr
  | gtE : JSValue → MongoExpr
  | ltE : JSValue → MongoExpr
  | regex : String → Bool → MongoExpr
  | undefined : MongoExpr

/-- Whether a produced leaf is the JavaScript null value: only the raw-value
case can be null, and only when the filter value itself was null. This is the
exact test (mongoExpr !== null) performed by the criteria builders. -/
def isNullExpr : MongoExpr → Bool
  | .raw .null => true
  | _ => false

/-- Embeds MongoStore. filterElementToMongoExpr from src/lib/mongoHandler.js
(identical in src/unnamed/part 002): an array value short-circuits to a
dollar-in expression before the operator is consulted; with a falsy operator
the raw value is returned; otherwise the operator table maps the four known
operators, and any other operator reads undefined out of the table. The colon
operator builds its regular expression without the case-insensitivity flag. -/
def filterElementToMongoExpr (filterElement : FilterElement) : MongoExpr :=
  let value := filterElement.value
  if isArr value then .inList value
  else if opAbsent filterElement.operator then .raw value
  else
    match filterElement.operator.getD "" with
    | ">" => .gtE value
    | "<" => .ltE value
    | "~" => .regex ("^" ++ jsToString value ++ "$") true
    | ":" => .regex (jsToString value) false
    | _ => .undefined

/-- Embeds MongoStore. filterElementToMongoExpr from src/unnamed/part 001:
no array case exists, so an array value with an absent operator is returned
raw, and the colon operator builds its regular expression with the
case-insensitivity flag. -/
def filterElementToMongoExprP1 (filterElement : FilterElement) : MongoExpr :=
  let value := filterElement.value
  if opAbsent filterElement.operator then .raw value
  else
    match filterElement.operator.getD "" with
    | ">" => .gtE value
    | "<" => .ltE value
    | "~" => .regex ("^" ++ jsToString value ++ "$") true
    | ":" => .regex (jsToString value) true
    | _ => .undefined

/-- A composed native query expression: the empty query object, a single
leaf binding one attribute to a leaf expression, or a dollar-or /
dollar-and combination. -/
inductive Criteria where
  | empty : Criteria
  | leaf : String → MongoExpr → Criteria
  | or : List Criteria → Criteria
  | and : List Criteria → Criteria

/-- Embeds parseCriteriaToMongoExpr from src/lib/customFiltering.js, with the
element translator passed in as the source passes in the MongoStore table
function. Per attribute the leaves are accumulated by the reduce that pushes
every leaf that is not null; zero kept leaves exclude the attribute, one is
used directly, several are wrapped in a dollar-or. Across attributes the
null placeholders are filtered away; zero attributes give the empty query,
one is used directly, several are wrapped in a dollar-and. -/
def parseCriteriaToMongoExpr (felem : FilterElement → MongoExpr)
    (filter : List (String × List FilterElement)) : Criteria :=
  let criteria := (filter.map (fun p =>
    let values := p.2.map felem
    let kept := values.foldl
      (fun acc e => if isNullExpr e then acc else acc ++ [Criteria.leaf p.1 e]) []
    match kept with
    | [] => none
    | [c] => some c
    | cs => some (.or cs))).filterMap id
  match criteria with
  | [] => .empty
  | [c] => c
  | cs => .and cs

/-- Embeds the criteria combination of MongoStore.prototype. getSearchCriteria
from src/lib/mongoHandler.js lines 95 to 124, taking the already merged filter
object as input. The per-attribute logic is the same as in
parseCriteriaToMongoExpr, but the final combination lacks the empty case: a
criteria list of any length other than one is wrapped in a dollar-and, so zero
contributing attributes produce a dollar-and of an empty list instead of the
empty query object. -/
def getSearchCriteria (filter : List (String × List FilterElement)) : Criteria :=
  let criteria := (filter.map (fun p =>
    let values := p.2.map filterElementToMongoExpr
    let kept := values.foldl
      (fun acc e => if isNullExpr e then acc else acc ++ [Criteria.leaf p.1 e]) []
    match kept with
    | [] => none
    | [c] => some c
    | cs => some (.or cs))).filterMap id
  match criteria with
  | [c] => c
  | cs => .and cs

/-- Specification-side per-attribute combination, written from the words of
the claim: keep the non-null leaves of the attribute; zero leaves exclude the
attribute, exactly one is used directly, two or more are wrapped in a
dollar-or. -/
def attributeCriteriaSpec (felem : FilterElement → MongoExpr)
    (attr : String) (elems : List FilterElement) : Option Criteria :=
  let leaves := (elems.map felem).filter (fun e => !isNullExpr e)
  match leaves.map (Criteria.leaf attr) with
  | [] => none
  | [c] => some c
  | cs => some (.or cs)

/-- The list of per-attribute expressions that contribute to the composed
query, in attribute order. -/
def criteriaList (felem : FilterElement → MongoExpr)
    (filter : List (String × List FilterElement)) : List Criteria :=
  filter.filterMap (fun p => attributeCriteriaSpec felem p.1 p.2)

/-- Specification-side composition across attributes, written from the words
of the claim: zero contributing attributes give the empty query, exactly one
is used directly, two or more are wrapped in a dollar-and. -/
def criteriaSpec (felem : FilterElement → MongoExpr)
    (filter : List (String × List FilterElement)) : Criteria :=
  match criteriaList felem filter with
  | [] => .empty
  | [c] => c
  | cs => .and cs

/-- Configuration of one attribute of a resource; settings records the
truthiness of its relationship settings field. -/
structure AttributeConfig where
  settings : Bool

/-- Resource configuration as consumed by the filtering code: the attribute
map, given as an ordered association list. -/
structure ResourceConfig where
  attributes : List (String × AttributeConfig)

/-- Truthiness of the relationship settings of a named attribute, the
expression (attributes[name] && attributes[name] settings) of the source. -/
def hasSettings (cfg : ResourceConfig) (name : String) : Bool :=
  match (cfg.attributes.lookup name) with
  | some a => a.settings
  | none => false

/-- Whether a string ends with the letter s, the test (attribute.endsWith
with the letter s) of the source, computed on the underlying characters. -/
def endsWithS (s : String) : Bool :=
  match s.data.getLast? with
  | some c => c = 's'
  | none => false

/-- The string with its final character removed, the slice from zero to minus
one of the source, computed on the underlying characters. -/
def dropLastChar (s : String) : String :=
  ⟨s.data.dropLast⟩

/-- Whether a string starts with the dollar sign, the test comparing the
substring from zero to one against the dollar sign in the source. -/
def startsWithDollar (s : String) : Bool :=
  match s.data with
  | c :: _ => c = '$'
  | [] => false

/-- Embeds isRelationship from src/lib/customFiltering.js: an attribute
defines a relationship when its own configuration has truthy settings, or,
when the attribute name ends in the letter s, when the configuration of the
name with that trailing letter removed has truthy settings. -/
def isRelationship (cfg : ResourceConfig) (attr : String) : Bool :=
  let attributeConfig := hasSettings cfg attr
  let potentialPluralAttrConfig :=
    if endsWithS attr then hasSettings cfg (dropLastChar attr) else false
  attributeConfig || potentialPluralAttrConfig

/-- Specification-side governedness, written from the words of the claim: a
key counts as relationship-governed when the attribute itself, or its
singularized form with a trailing s removed, has relationship settings in the
resource configuration. -/
def relationshipGovernedSpec (cfg : ResourceConfig) (key : String) : Bool :=
  hasSettings cfg key || (endsWithS key && hasSettings cfg (dropLastChar key))

/-- Embeds castRelationshipId from src/lib/customFiltering.js. The validity
test is the external driver function ObjectId.isValid, modelled from the
spec as an abstract syntactic-validity predicate on strings (the spec calls
for conversion exactly when the string is a syntactically valid native
identifier); a valid string becomes a native identifier object and every
other value is returned unchanged. -/
def castRelationshipId (valid : String → Bool) : JSValue → JSValue
  | .str s => if valid s then .oid s else .str s
  | v => v

mutual

/-- Embeds parseRelationshipAttributes from src/lib/customFiltering.js:
arrays recurse element-wise under the same governing key; objects that carry
a truthy bsontype property are already native identifiers and are returned
unchanged, while other objects recurse key-wise, a child key starting with
the dollar operator marker keeping the parent governing key; native
identifier and binary values are returned unchanged; any other value is cast
when the governing key is a relationship. -/
def parseRelationshipAttributes (valid : String → Bool) (cfg : ResourceConfig)
    (key : String) : JSValue → JSValue
  | .arr l => .arr (parseRelList valid cfg key l)
  | .obj entries =>
      if jsTruthyOpt (jsGet entries "_bsontype") then .obj entries
      else .obj (parseRelEntries valid cfg key entries)
  | .oid s => .oid s
  | .binary b => .binary b
  | .str s =>
      if isRelationship cfg key then castRelationshipId valid (.str s) else .str s
  | .num n =>
      if isRelationship cfg key then castRelationshipId valid (.num n) else .num n
  | .bool b =>
      if isRelationship cfg key then castRelationshipId valid (.bool b) else .bool b
  | .null =>
      if isRelationship cfg key then castRelationshipId valid .null else .null
  | .undefined =>
      if isRelationship cfg key then castRelationshipId valid .undefined else .undefined

def parseRelList (valid : String → Bool) (cfg : ResourceConfig) (key : String) :
    List JSValue → List JSValue
  | [] => []
  | v :: rest =>
      parseRelationshipAttributes valid cfg key v :: parseRelList valid cfg key rest

def parseRelEntries (valid : String → Bool) (cfg : ResourceConfig) (key : String) :
    List (String × JSValue) → List (String × JSValue)
  | [] => []
  | (valKey, v) :: rest =>
      (valKey,
        parseRelationshipAttributes valid cfg
          (if startsWithDollar valKey then key else valKey) v) ::
        parseRelEntries valid cfg key rest

end

/-- Embeds parseObjectRelationships from src/lib/customFiltering.js: every
top-level property is parsed under its own key as governing key. -/
def parseObjectRelationships (valid : String → Bool) (cfg : ResourceConfig)
    (given : Doc) : Doc :=
  given.map (fun kv => (kv.1, parseRelationshipAttributes valid cfg kv.1 kv.2))

/-- Structured error payload as built by the two error constructors of
src/lib/mongoHandler.js. The detail field is a JS value because the unknown
error stores the raw driver error there. -/
structure ErrorPayload where
  status : String
  code : String
  title : String
  detail : JSValue

/-- Embeds MongoStore. notFoundError from src/lib/mongoHandler.js. -/
def notFoundError (type : String) (id : String) : ErrorPayload :=
  { status := "404"
    code := "ENOTFOUND"
    title := "Requested resource does not exist"
    detail := .str ("There is no " ++ type ++ " with id " ++ id) }

/-- Embeds MongoStore. unknownError from src/lib/mongoHandler.js; the typo in
the title is the one in the source. -/
def unknownError (err : JSValue) : ErrorPayload :=
  { status := "500"
    code := "EUNKNOWN"
    title := "An unknown error has occured"
    detail := err }

/-- Embeds MongoStore. mongoUuid from src/lib/mongoHandler.js applied to a
request id: the driver ObjectID constructor applied to an id string yields
the native identifier carrying that string. -/
def mongoUuid (id : String) : JSValue :=
  .oid id

/-- Embeds MongoStore. toMongoDocument from src/lib/mongoHandler.js: lodash
omitBy drops every property whose value is undefined, and the primary key is
assigned the result of calling mongoUuid with no argument, which makes the
driver mint a fresh ObjectID; the freshly generated identifier is passed in
explicitly as freshId. The public id of the resource is not consulted. -/
def toMongoDocument (freshId : String) (resource : Doc) : Doc :=
  let document := omitUndef resource
  jsSet document "_id" (.oid freshId)

/-- The value of a property read, with a missing property reading as the
JavaScript undefined value. -/
def jsGetVal (d : Doc) (k : String) : JSValue :=
  (jsGet d k).getD .undefined

/-- Embeds MongoStore. toMongoDocument from src/unnamed/part 001: lodash
omitBy drops every property whose value is undefined, and the primary key is
the mongodb Binary UUID built from the public id property of the document. -/
def toMongoDocumentP1 (resource : Doc) : Doc :=
  let document := omitUndef resource
  jsSet document "_id" (.binary (jsGetVal document "id"))

/-- Request parameters as consumed by the CRUD operations. -/
structure RequestParams where
  type : String
  id : String

/-- A request carrying its parameters. -/
structure Request where
  params : RequestParams

/-- Whether a document field equals a query value, the per-field equality
match the store applies for each property of a query document. -/
def docFieldEq (d : Doc) (k : String) (v : JSValue) : Bool :=
  match jsGet d k with
  | some w => jsValueEq w v
  | none => false

/-- Driver findOne over the collection model: the first document satisfying
the matcher. -/
def findOneDoc : List Doc → (Doc → Bool) → Option Doc
  | [], _ => none
  | d :: rest, p => if p d then some d else findOneDoc rest p

/-- Whether a document matches the primary-key part of a query, comparing its
underscore-id field against the given native identifier value. -/
def docIdMatches (docId : JSValue) (d : Doc) : Bool :=
  docFieldEq d "_id" docId

/-- Embeds MongoStore.prototype.find from src/lib/mongoHandler.js: the query
is the native identifier built from the request id together with the
not-soft-deleted flag; the driver outcome is modelled by the optional driver
error and the collection content. The callback branches on (err or not
result) and returns the not-found payload in both cases, the found document
otherwise. -/
def find (driverErr : Option JSValue) (coll : List Doc) (request : Request) :
    Except ErrorPayload Doc :=
  let documentId := mongoUuid request.params.id
  let result := findOneDoc coll (fun d =>
    docIdMatches documentId d && docFieldEq d "isSoftDeleted" (.bool false))
  match driverErr, result with
  | some _, _ => .error (notFoundError request.params.type request.params.id)
  | none, none => .error (notFoundError request.params.type request.params.id)
  | none, some r => .ok r

/-- Driver result object of a deleteOne call. -/
structure DeleteResult where
  deletedCount : Nat

/-- Driver deleteOne over the collection model: removes the first document
whose primary key matches and reports how many documents were removed. -/
def deleteOneDoc (docId : JSValue) : List Doc → List Doc × Nat
  | [] => ([], 0)
  | d :: rest =>
      if docIdMatches docId d then (rest, 1)
      else
        let r := deleteOneDoc docId rest
        (d :: r.1, r.2)

/-- Embeds MongoStore.prototype.delete from src/lib/mongoHandler.js: deletes
by the native identifier built from the request id; a driver error yields the
unknown error, a deleted count of zero yields the not-found error, and
otherwise the driver result is returned. -/
def deleteOp (driverErr : Option JSValue) (coll : List Doc) (request : Request) :
    List Doc × Except ErrorPayload DeleteResult :=
  let documentId := mongoUuid request.params.id
  match driverErr with
  | some e => (coll, .error (unknownError e))
  | none =>
      let r := deleteOneDoc documentId coll
      if r.2 = 0 then
        (coll, .error (notFoundError request.params.type request.params.id))
      else (r.1, .ok { deletedCount := r.2 })

/-- Driver dollar-set application: assign every property of the patch onto
the document in order. -/
def setFields (d : Doc) (patch : Doc) : Doc :=
  patch.foldl (fun acc kv => jsSet acc kv.1 kv.2) d

/-- Driver findOneAndUpdate with a dollar-set update and returnOriginal set
to false: the first document whose primary key matches is replaced by the
patched document, which is also returned; with no match the collection is
unchanged and no value is returned. -/
def findOneAndUpdateSet (docId : JSValue) (patch : Doc) :
    List Doc → List Doc × Option Doc
  | [] => ([], none)
  | d :: rest =>
      if docIdMatches docId d then
        let updated := setFields d patch
        (updated :: rest, some updated)
      else
        let r := findOneAndUpdateSet docId patch rest
        (d :: r.1, r.2)

/-- Embeds MongoStore.prototype.update from src/lib/mongoHandler.js: the
fields of the given resource whose value is undefined are dropped by lodash
omitBy, then an atomic findOneAndUpdate keyed on the native identifier built
from the request id applies the remaining fields with dollar-set and returns
the post-update document; a driver error yields the unknown error and a
missing result value yields the not-found error. The source names the third
argument partialResource. -/
def update (driverErr : Option JSValue) (coll : List Doc) (request : Request)
    (patchResource : Doc) : List Doc × Except ErrorPayload Doc :=
  let documentId := mongoUuid request.params.id
  let patchDocument := omitUndef patchResource
  match driverErr with
  | some e => (coll, .error (unknownError e))
  | none =>
      let r := findOneAndUpdateSet documentId patchDocument coll
      match r.2 with
      | none => (coll, .error (notFoundError request.params.type request.params.id))
      | some v => (r.1, .ok v)

/-- A JavaScript value as it arrives in the first argument of an operation
callback: a structured error payload, a bare string, the null value, or an
uninvoked function reference. -/
inductive JSCallbackArg where
  | payload : ErrorPayload → JSCallbackArg
  | rawStr : String → JSCallbackArg
  | jsNull : JSCallbackArg
  | fnValue : JSCallbackArg

/-- Whether the first callback argument is a structured error payload. -/
def isStructuredPayload : Option JSCallbackArg → Bool
  | some (.payload _) => true
  | _ => false

/-- Embeds the completion handler of MongoStore.prototype.search from
src/lib/mongoHandler.js: on a query execution error the callback receives
MongoStore. unknownError itself, uninvoked, as its error argument; on success
the error argument is absent. -/
def searchCallbackArg (err : Option JSValue) : Option JSCallbackArg :=
  match err with
  | some _ => some .fnValue
  | none => none

/-- Embeds the document construction of MongoStore.prototype.create from
src/lib/mongoHandler.js: the type property is deleted, the soft-deleted flag
is set to false, and the result is mapped to a mongo document with a freshly
generated primary key. -/
def createDocument (freshId : String) (newResource : Doc) : Doc :=
  toMongoDocument freshId (jsSet (removeKey newResource "type") "isSoftDeleted" (.bool false))

/-- Embeds the callback dispatch of MongoStore.prototype.create from
src/lib/mongoHandler.js, with the driver outcomes passed in: an insert error
is wrapped with unknownError; when the post-insert read fails the callback
receives the insert error variable, which is null on that path; when the
post-insert read returns nothing the callback receives a bare string; on
success the error argument is absent. -/
def createCallbackArg (insertErr : Option JSValue) (postFindErr : Option JSValue)
    (postFindResult : Option Doc) : Option JSCallbackArg :=
  match insertErr with
  | some e => some (.payload (unknownError e))
  | none =>
      match postFindErr with
      | some _ => some .jsNull
      | none =>
          match postFindResult with
          | none => some (.rawStr "Could not find document after insert")
          | some _ => none

/-- Connection state of the store: the readiness flag. -/
structure ConnState where
  ready : Bool

/-- An action scheduled by a lifecycle handler: re-running initialise after
the given delay in milliseconds. -/
inductive ScheduledAction where
  | retryInitialise : Nat → ScheduledAction

/-- A connection lifecycle event as handled by MongoStore.prototype.initialise
from src/lib/mongoHandler.js: the connect promise fails, the connect promise
succeeds and index creation completes, the driver emits the close event, or
the callback of the probe read issued by the close handler fires with an
optional error. -/
inductive ConnEvent where
  | connectFailure : ConnEvent
  | connectSuccess : ConnEvent
  | closeEvent : ConnEvent
  | probeCallbackFires : Option JSValue → ConnEvent

/-- Embeds the lifecycle handlers of MongoStore.prototype.initialise from
src/lib/mongoHandler.js as a step function returning the new state, the
scheduled actions, and how many probe reads are issued by the step. A connect
failure schedules exactly one initialise retry after five seconds and leaves
readiness untouched because the chained then handler throws before setting
it; a successful connect sets readiness after index creation; the close
event flips readiness false and issues one findOne probe against the Nope
collection; the probe callback ignores its error argument and flips
readiness true unconditionally. -/
def connStep (s : ConnState) : ConnEvent → ConnState × List ScheduledAction × Nat
  | .connectFailure => (s, [.retryInitialise 5000], 0)
  | .connectSuccess => ({ ready := true }, [], 0)
  | .closeEvent => ({ ready := false }, [], 1)
  | .probeCallbackFires _ => ({ ready := true }, [], 0)

section Lemmas

theorem jsGet_jsSet_self (d : Doc) (k : String) (v : JSValue) :
    jsGet (jsSet d k v) k = some v := by
  induction d with
  | nil => simp [jsSet, jsGet]
  | cons kv rest ih =>
      obtain ⟨k1, v1⟩ := kv
      by_cases h : k1 = k
      · simp [jsSet, h, jsGet]
      · simp [jsSet, h, jsGet, ih]

theorem jsGet_jsSet_ne (d : Doc) (k k2 : String) (v : JSValue) (h : k2 ≠ k) :
    jsGet (jsSet d k v) k2 = jsGet d k2 := by
  have h2 : ¬ k = k2 := fun hh => h hh.symm
  induction d with
  | nil => simp [jsSet, jsGet, h2]
  | cons kv rest ih =>
      obtain ⟨k1, v1⟩ := kv
      by_cases h1 : k1 = k
      · subst h1
        simp [jsSet, jsGet, h2]
      · simp [jsSet, h1, jsGet, ih]

theorem jsGet_cons_ne (k1 k : String) (v1 : JSValue) (rest : Doc) (h : k1 ≠ k) :
    jsGet ((k1, v1) :: rest) k = jsGet rest k := by
  simp [jsGet, h]

theorem jsGet_none_of_not_mem (d : Doc) (k : String) (h : k ∉ d.map Prod.fst) :
    jsGet d k = none := by
  induction d with
  | nil => simp [jsGet]
  | cons kv rest ih =>
      obtain ⟨k1, v1⟩ := kv
      simp only [List.map_cons, List.mem_cons] at h
      push_neg at h
      have h1 : ¬ k1 = k := fun hh => h.1 hh.symm
      simp [jsGet, h1, ih h.2]

theorem jsGet_setFields_not_mem (patch : Doc) (k : String) (h : jsGet patch k = none) :
    ∀ d, jsGet (setFields d patch) k = jsGet d k := by
  induction patch with
  | nil => intro d; simp [setFields]
  | cons kv rest ih =>
      intro d
      obtain ⟨k1, v1⟩ := kv
      by_cases h1 : k1 = k
      · subst h1; simp [jsGet] at h
      · rw [jsGet_cons_ne k1 k v1 rest h1] at h
        show jsGet (setFields (jsSet d k1 v1) rest) k = jsGet d k
        rw [ih h, jsGet_jsSet_ne _ _ _ _ (fun hh => h1 hh.symm)]

theorem jsGet_setFields_mem (patch : Doc) (k : String) (v : JSValue)
    (hnd : (patch.map Prod.fst).Nodup) (h : jsGet patch k = some v) :
    ∀ d, jsGet (setFields d patch) k = some v := by
  induction patch with
  | nil => intro d; simp [jsGet] at h
  | cons kv rest ih =>
      intro d
      obtain ⟨k1, v1⟩ := kv
      simp only [List.map_cons, List.nodup_cons] at hnd
      by_cases h1 : k1 = k
      · subst h1
        simp only [jsGet, if_pos rfl] at h
        obtain rfl : v1 = v := by injection h
        show jsGet (setFields (jsSet d k1 v1) rest) k1 = some v1
        rw [jsGet_setFields_not_mem rest k1 (jsGet_none_of_not_mem rest k1 hnd.1),
          jsGet_jsSet_self]
      · rw [jsGet_cons_ne k1 k v1 rest h1] at h
        show jsGet (setFields (jsSet d k1 v1) rest) k = some v
        exact ih hnd.2 h (jsSet d k1 v1)

theorem jsGet_omitUndef_of_none (p : Doc) (k : String) (h : jsGet p k = none) :
    jsGet (omitUndef p) k = none := by
  induction p with
  | nil => simp [omitUndef, jsGet]
  | cons kv rest ih =>
      obtain ⟨k1, v1⟩ := kv
      by_cases h1 : k1 = k
      · subst h1; simp [jsGet] at h
      · rw [jsGet_cons_ne k1 k v1 rest h1] at h
        by_cases hu : isUndefinedVal v1 = true
        · simpa [omitUndef, hu] using ih h
        · have : omitUndef ((k1, v1) :: rest) = (k1, v1) :: omitUndef rest := by
            simp [omitUndef, hu]
          rw [this, jsGet_cons_ne k1 k v1 _ h1]
          exact ih h

theorem jsGet_omitUndef_of_undefinedVal (p : Doc) (k : String)
    (hnd : (p.map Prod.fst).Nodup) (h : jsGet p k = some .undefined) :
    jsGet (omitUndef p) k = none := by
  induction p with
  | nil => simp [jsGet] at h
  | cons kv rest ih =>
      obtain ⟨k1, v1⟩ := kv
      simp only [List.map_cons, List.nodup_cons] at hnd
      by_cases h1 : k1 = k
      · subst h1
        simp only [jsGet, if_pos rfl] at h
        obtain rfl : v1 = JSValue.undefined := by injection h
        simp only [omitUndef, List.filter_cons, isUndefinedVal, Bool.not_true, Bool.false_eq_true,
          if_neg, reduceIte]
        exact jsGet_omitUndef_of_none rest k1 (jsGet_none_of_not_mem rest k1 hnd.1)
      · rw [jsGet_cons_ne k1 k v1 rest h1] at h
        by_cases hu : isUndefinedVal v1 = true
        · simpa [omitUndef, hu] using ih hnd.2 h
        · have : omitUndef ((k1, v1) :: rest) = (k1, v1) :: omitUndef rest := by
            simp [omitUndef, hu]
          rw [this, jsGet_cons_ne k1 k v1 _ h1]
          exact ih hnd.2 h

theorem jsGet_omitUndef_of_defined (p : Doc) (k : String) (v : JSValue)
    (h : jsGet p k = some v) (hv : v ≠ .undefined) :
    jsGet (omitUndef p) k = some v := by
  induction p with
  | nil => simp [jsGet] at h
  | cons kv rest ih =>
      obtain ⟨k1, v1⟩ := kv
      by_cases h1 : k1 = k
      · subst h1
        simp only [jsGet, if_pos rfl] at h
        obtain rfl : v1 = v := by injection h
        have hu : isUndefinedVal v1 = false := by
          cases v1 <;> simp [isUndefinedVal] at hv ⊢
        have : omitUndef ((k1, v1) :: rest) = (k1, v1) :: omitUndef rest := by
          simp [omitUndef, hu]
        rw [this]
        simp [jsGet]
      · rw [jsGet_cons_ne k1 k v1 rest h1] at h
        by_cases hu : isUndefinedVal v1 = true
        · simpa [omitUndef, hu] using ih h
        · have : omitUndef ((k1, v1) :: rest) = (k1, v1) :: omitUndef rest := by
            simp [omitUndef, hu]
          rw [this, jsGet_cons_ne k1 k v1 _ h1]
          exact ih h

theorem omitUndef_keys_nodup (p : Doc) (hnd : (p.map Prod.fst).Nodup) :
    ((omitUndef p).map Prod.fst).Nodup := by
  have hsub : (omitUndef p).Sublist p := List.filter_sublist p
  exact hnd.sublist (hsub.map Prod.fst)

theorem findOneDoc_all_false (p : Doc → Bool) :
    ∀ coll : List Doc, coll.all (fun d => !p d) = true → findOneDoc coll p = none := by
  intro coll
  induction coll with
  | nil => intro _; rfl
  | cons d rest ih =>
      intro h
      simp only [List.all_cons, Bool.and_eq_true, Bool.not_eq_true'] at h
      simp [findOneDoc, h.1, ih (by simpa using h.2)]

end Lemmas

section MoreLemmas

theorem deleteOneDoc_all_false (docId : JSValue) :
    ∀ coll : List Doc, coll.all (fun d => !docIdMatches docId d) = true →
      deleteOneDoc docId coll = (coll, 0) := by
  intro coll
  induction coll with
  | nil => intro _; rfl
  | cons d rest ih =>
      intro h
      simp only [List.all_cons, Bool.and_eq_true, Bool.not_eq_true'] at h
      simp [deleteOneDoc, h.1, ih (by simpa using h.2)]

theorem deleteOneDoc_split (docId : JSValue) (d : Doc) (post : List Doc)
    (hd : docIdMatches docId d = true) :
    ∀ pre : List Doc, pre.all (fun x => !docIdMatches docId x) = true →
      deleteOneDoc docId (pre ++ d :: post) = (pre ++ post, 1) := by
  intro pre
  induction pre with
  | nil => intro _; simp [deleteOneDoc, hd]
  | cons p rest ih =>
      intro h
      simp only [List.all_cons, Bool.and_eq_true, Bool.not_eq_true'] at h
      simp [deleteOneDoc, h.1, ih (by simpa using h.2)]

theorem findOneAndUpdateSet_all_false (docId : JSValue) (patch : Doc) :
    ∀ coll : List Doc, coll.all (fun d => !docIdMatches docId d) = true →
      findOneAndUpdateSet docId patch coll = (coll, none) := by
  intro coll
  induction coll with
  | nil => intro _; rfl
  | cons d rest ih =>
      intro h
      simp only [List.all_cons, Bool.and_eq_true, Bool.not_eq_true'] at h
      simp [findOneAndUpdateSet, h.1, ih (by simpa using h.2)]

theorem findOneAndUpdateSet_split (docId : JSValue) (patch : Doc) (d : Doc)
    (post : List Doc) (hd : docIdMatches docId d = true) :
    ∀ pre : List Doc, pre.all (fun x => !docIdMatches docId x) = true →
      findOneAndUpdateSet docId patch (pre ++ d :: post) =
        (pre ++ setFields d patch :: post, some (setFields d patch)) := by
  intro pre
  induction pre with
  | nil => intro _; simp [findOneAndUpdateSet, hd]
  | cons p rest ih =>
      intro h
      simp only [List.all_cons, Bool.and_eq_true, Bool.not_eq_true'] at h
      simp [findOneAndUpdateSet, h.1, ih (by simpa using h.2)]

theorem all_not_of_and_left (f g : Doc → Bool) (l : List Doc)
    (h : l.all (fun d => !f d) = true) :
    l.all (fun d => !(f d && g d)) = true := by
  simp only [List.all_eq_true] at h ⊢
  intro d hd
  have hf := h d hd
  cases hfd : f d
  · simp
  · rw [hfd] at hf; simp at hf

theorem foldl_push_eq_filter_map (attr : String) (vals : List MongoExpr) :
    ∀ acc : List Criteria,
      vals.foldl (fun acc e => if isNullExpr e then acc else acc ++ [Criteria.leaf attr e]) acc =
        acc ++ (vals.filter (fun e => !isNullExpr e)).map (Criteria.leaf attr) := by
  induction vals with
  | nil => intro acc; simp
  | cons e rest ih =>
      intro acc
      cases h : isNullExpr e <;> simp [List.filter_cons, h, ih]

theorem parseRelList_eq_map (valid : String → Bool) (cfg : ResourceConfig) (key : String) :
    ∀ l : List JSValue,
      parseRelList valid cfg key l = l.map (parseRelationshipAttributes valid cfg key) := by
  intro l
  induction l with
  | nil => simp [parseRelList]
  | cons v rest ih => simp [parseRelList, ih]

theorem parseRelEntries_eq_map (valid : String → Bool) (cfg : ResourceConfig) (key : String) :
    ∀ entries : List (String × JSValue),
      parseRelEntries valid cfg key entries = entries.map (fun kv =>
        (kv.1, parseRelationshipAttributes valid cfg
          (if startsWithDollar kv.1 then key else kv.1) kv.2)) := by
  intro entries
  induction entries with
  | nil => simp [parseRelEntries]
  | cons kv rest ih =>
      obtain ⟨k1, v1⟩ := kv
      simp [parseRelEntries, ih]

end MoreLemmas

theorem attributeCriteria_impl_eq_spec (felem : FilterElement → MongoExpr)
    (p : String × List FilterElement) :
    (match ((p.2.map felem).foldl
        (fun acc e => if isNullExpr e then acc else acc ++ [Criteria.leaf p.1 e]) []) with
      | [] => none
      | [c] => some c
      | cs => some (Criteria.or cs)) = attributeCriteriaSpec felem p.1 p.2 := by
  rw [foldl_push_eq_filter_map p.1 (p.2.map felem) []]
  simp [attributeCriteriaSpec]

theorem criteria_impl_list_eq_spec (felem : FilterElement → MongoExpr) :
    ∀ fl : List (String × List FilterElement),
      (fl.filterMap (fun p =>
        match ((p.2.map felem).foldl
            (fun acc e => if isNullExpr e then acc else acc ++ [Criteria.leaf p.1 e]) []) with
          | [] => none
          | [c] => some c
          | cs => some (Criteria.or cs))) = criteriaList felem fl := by
  intro fl
  induction fl with
  | nil => rfl
  | cons p rest ih =>
      unfold criteriaList
      rw [List.filterMap_cons, List.filterMap_cons, attributeCriteria_impl_eq_spec felem p]
      cases h : attributeCriteriaSpec felem p.1 p.2 <;> simp only [ih, criteriaList]

theorem filterMap_id_map {A B : Type} (f : A → Option B) (l : List A) :
    (l.map f).filterMap id = l.filterMap f := by
  induction l with
  | nil => rfl
  | cons a rest ih => cases h : f a <;> simp [List.filterMap_cons, h, ih]

theorem parseCriteria_eq_spec (felem : FilterElement → MongoExpr)
    (filter : List (String × List FilterElement)) :
    parseCriteriaToMongoExpr felem filter = criteriaSpec felem filter := by
  simp only [parseCriteriaToMongoExpr, criteriaSpec, filterMap_id_map,
    criteria_impl_list_eq_spec felem]

theorem getSearchCriteria_cases (filter : List (String × List FilterElement)) :
    getSearchCriteria filter =
      (match criteriaList filterElementToMongoExpr filter with
        | [c] => c
        | cs => Criteria.and cs) := by
  simp only [getSearchCriteria, filterMap_id_map,
    criteria_impl_list_eq_spec filterElementToMongoExpr]

/-- C1 as stated is false for the variant of the criteria translator inlined
in src/lib/mongoHandler.js: with zero contributing attributes its
getSearchCriteria produces a dollar-and of an empty list instead of the empty
query object, while parseCriteriaToMongoExpr from src/lib/customFiltering.js
produces the empty query object. -/
theorem c1_counterexample :
    getSearchCriteria [] = Criteria.and [] ∧
    Criteria.and [] ≠ Criteria.empty ∧
    parseCriteriaToMongoExpr filterElementToMongoExpr [] = Criteria.empty :=
  ⟨rfl, fun h => Criteria.noConfusion h, rfl⟩

/-- C1 amended: parseCriteriaToMongoExpr combines exactly as the claim says,
shown by agreement with the specification-side description for every filter:
per attribute the non-null leaves give exclusion, direct use, or a dollar-or;
across attributes zero contributors give the empty expression, one is used
directly, several are wrapped in a dollar-and. The getSearchCriteria of
src/lib/mongoHandler.js behaves identically except with zero contributing
attributes, where it yields a dollar-and of an empty list instead of the
empty expression. -/
theorem c1_criteria_composition_amended (felem : FilterElement → MongoExpr)
    (filter : List (String × List FilterElement)) :
    parseCriteriaToMongoExpr felem filter = criteriaSpec felem filter ∧
    (criteriaList filterElementToMongoExpr filter = [] →
      getSearchCriteria filter = Criteria.and []) ∧
    (∀ c, criteriaList filterElementToMongoExpr filter = [c] →
      getSearchCriteria filter = c) ∧
    (∀ c c2 cs, criteriaList filterElementToMongoExpr filter = c :: c2 :: cs →
      getSearchCriteria filter = Criteria.and (c :: c2 :: cs)) ∧
    (criteriaList filterElementToMongoExpr filter ≠ [] →
      getSearchCriteria filter =
        parseCriteriaToMongoExpr filterElementToMongoExpr filter) := by
  refine ⟨parseCriteria_eq_spec felem filter, ?_, ?_, ?_, ?_⟩
  · intro h
    rw [getSearchCriteria_cases filter, h]
  · intro c h
    rw [getSearchCriteria_cases filter, h]
  · intro c c2 cs h
    rw [getSearchCriteria_cases filter, h]
  · intro h
    rw [getSearchCriteria_cases filter,
      parseCriteria_eq_spec filterElementToMongoExpr filter]
    unfold criteriaSpec
    cases hl : criteriaList filterElementToMongoExpr filter with
    | nil => exact absurd hl h
    | cons c cs => cases cs <;> rfl

/-- Witness for the amended C1 on a concrete filter: one attribute with two
leaves becomes a dollar-or, a null-valued attribute is excluded, and both
translators agree because the contributing list is nonempty. -/
theorem c1_criteria_composition_amended_witness :
    parseCriteriaToMongoExpr filterElementToMongoExpr
        [("status", [⟨none, .str "open"⟩, ⟨none, .str "closed"⟩]),
         ("gone", [⟨none, .null⟩])] =
      criteriaSpec filterElementToMongoExpr
        [("status", [⟨none, .str "open"⟩, ⟨none, .str "closed"⟩]),
         ("gone", [⟨none, .null⟩])] ∧
    getSearchCriteria
        [("status", [⟨none, .str "open"⟩, ⟨none, .str "closed"⟩]),
         ("gone", [⟨none, .null⟩])] =
      Criteria.or [Criteria.leaf "status" (.raw (.str "open")),
        Criteria.leaf "status" (.raw (.str "closed"))] := by
  have h := c1_criteria_composition_amended filterElementToMongoExpr
    [("status", [⟨none, .str "open"⟩, ⟨none, .str "closed"⟩]),
     ("gone", [⟨none, .null⟩])]
  refine ⟨h.1, h.2.2.1 _ rfl⟩

/-- C2 as stated is false for the table in src/lib/mongoHandler.js: the colon
operator builds a case-sensitive regular expression with no flag, and an
array value short-circuits to a dollar-in expression even when an operator
such as greater-than is present; moreover an unknown operator yields the
JavaScript undefined, which survives the strict non-null check of the
criteria builder as a leaf instead of being discarded, while the part 001
variant has no array case at all. -/
theorem c2_counterexample :
    filterElementToMongoExpr ⟨some ":", .str "Abc"⟩ = .regex "Abc" false ∧
    MongoExpr.regex "Abc" false ≠ MongoExpr.regex "Abc" true ∧
    filterElementToMongoExpr ⟨some ">", .arr [.num 3]⟩ = .inList (.arr [.num 3]) ∧
    MongoExpr.inList (.arr [.num 3]) ≠ MongoExpr.gtE (.arr [.num 3]) ∧
    parseCriteriaToMongoExpr filterElementToMongoExpr
      [("a", [⟨some "bad", .str "x"⟩])] = Criteria.leaf "a" MongoExpr.undefined ∧
    filterElementToMongoExprP1 ⟨none, .arr [.num 3]⟩ = .raw (.arr [.num 3]) ∧
    MongoExpr.raw (.arr [.num 3]) ≠ MongoExpr.inList (.arr [.num 3]) := by
  refine ⟨rfl, ?_, rfl, ?_, rfl, rfl, ?_⟩ <;> intro h <;> cases h

/-- C2 amended: in src/lib/mongoHandler.js an array value yields a dollar-in
expression regardless of the operator, because the array test precedes the
operator test; for non-array values an absent operator yields the raw value,
greater-than yields dollar-gt, less-than yields dollar-lt, tilde yields a
case-insensitive pattern anchored at both ends, and colon yields a
case-sensitive substring pattern with no flag; an operator outside the table
yields the JavaScript undefined, which is kept as a leaf by the criteria
builder rather than discarded, the builder discarding only null leaves. In
the src/unnamed/part 001 variant there is no array case, so an absent
operator returns even an array value raw, and the colon pattern carries the
case-insensitivity flag. -/
theorem c2_operator_table_amended (v : JSValue) (l : List JSValue)
    (op : Option String) (attr s : String) :
    filterElementToMongoExpr ⟨op, .arr l⟩ = .inList (.arr l) ∧
    (isArr v = false → filterElementToMongoExpr ⟨none, v⟩ = .raw v) ∧
    (isArr v = false → filterElementToMongoExpr ⟨some ">", v⟩ = .gtE v) ∧
    (isArr v = false → filterElementToMongoExpr ⟨some "<", v⟩ = .ltE v) ∧
    (isArr v = false → filterElementToMongoExpr ⟨some "~", v⟩ =
      .regex ("^" ++ jsToString v ++ "$") true) ∧
    (isArr v = false → filterElementToMongoExpr ⟨some ":", v⟩ =
      .regex (jsToString v) false) ∧
    (isArr v = false →
      op ∉ [none, some "", some ">", some "<", some "~", some ":"] →
      filterElementToMongoExpr ⟨op, v⟩ = .undefined) ∧
    filterElementToMongoExprP1 ⟨none, v⟩ = .raw v ∧
    filterElementToMongoExprP1 ⟨some ":", v⟩ = .regex (jsToString v) true ∧
    parseCriteriaToMongoExpr filterElementToMongoExpr
      [(attr, [⟨some "unknown", .str s⟩])] = Criteria.leaf attr MongoExpr.undefined ∧
    parseCriteriaToMongoExpr filterElementToMongoExpr
      [(attr, [⟨none, .null⟩])] = Criteria.empty := by
  refine ⟨rfl, ?_, ?_, ?_, ?_, ?_, ?_, rfl, rfl, rfl, rfl⟩
  · intro h; simp [filterElementToMongoExpr, h, opAbsent]
  · intro h; simp [filterElementToMongoExpr, h, opAbsent]
  · intro h; simp [filterElementToMongoExpr, h, opAbsent]
  · intro h; simp [filterElementToMongoExpr, h, opAbsent]
  · intro h; simp [filterElementToMongoExpr, h, opAbsent]
  · intro h hop
    simp only [List.mem_cons, List.mem_singleton] at hop
    push_neg at hop
    cases op with
    | none => exact absurd rfl hop.1
    | some x =>
        have hxe : ¬ x = "" := fun hh => hop.2.1 (by rw [hh])
        have hxgt : ¬ x = ">" := fun hh => hop.2.2.1 (by rw [hh])
        have hxlt : ¬ x = "<" := fun hh => hop.2.2.2.1 (by rw [hh])
        have hxtl : ¬ x = "~" := fun hh => hop.2.2.2.2.1 (by rw [hh])
        have hxcl : ¬ x = ":" := fun hh => hop.2.2.2.2.2.1 (by rw [hh])
        simp [filterElementToMongoExpr, h, opAbsent, hxe, hxgt, hxlt, hxtl, hxcl]

/-- Witness for the amended C2 at concrete inputs: a non-array string value
exercises every operator row, and an unknown operator yields the undefined
leaf. -/
theorem c2_operator_table_amended_witness :
    filterElementToMongoExpr ⟨some "zz", .str "w"⟩ = .undefined ∧
    filterElementToMongoExpr ⟨none, .str "w"⟩ = .raw (.str "w") ∧
    filterElementToMongoExpr ⟨some "~", .str "w"⟩ = .regex "^w$" true := by
  have h := c2_operator_table_amended (.str "w") [] (some "zz") "a" "w"
  refine ⟨h.2.2.2.2.2.2.1 rfl ?_, h.2.1 rfl, h.2.2.2.2.1 rfl⟩
  intro hmem
  simp at hmem

/-- C3: the relationship resolver recurses element-wise through arrays under
the same governing key and key-wise through objects, where a child key
starting with the dollar operator marker keeps the parent governing key; a
key is relationship-governed exactly when the attribute itself or its
singularized form has relationship settings; a string under a governed key is
converted to the native identifier exactly when it is valid, and every other
value, including native identifier and binary objects, is returned
untouched. -/
theorem c3_relationship_resolution (valid : String → Bool) (cfg : ResourceConfig)
    (key : String) :
    (∀ l, parseRelationshipAttributes valid cfg key (.arr l) =
      .arr (l.map (parseRelationshipAttributes valid cfg key))) ∧
    (∀ entries, parseRelationshipAttributes valid cfg key (.obj entries) =
      if jsTruthyOpt (jsGet entries "_bsontype") then .obj entries
      else .obj (entries.map (fun kv =>
        (kv.1, parseRelationshipAttributes valid cfg
          (if startsWithDollar kv.1 then key else kv.1) kv.2)))) ∧
    isRelationship cfg key = relationshipGovernedSpec cfg key ∧
    (∀ s, parseRelationshipAttributes valid cfg key (.str s) =
      if isRelationship cfg key then (if valid s then .oid s else .str s)
      else .str s) ∧
    (∀ n, parseRelationshipAttributes valid cfg key (.num n) = .num n) ∧
    (∀ b, parseRelationshipAttributes valid cfg key (.bool b) = .bool b) ∧
    parseRelationshipAttributes valid cfg key .null = .null ∧
    parseRelationshipAttributes valid cfg key .undefined = .undefined ∧
    (∀ s, parseRelationshipAttributes valid cfg key (.oid s) = .oid s) ∧
    (∀ b, parseRelationshipAttributes valid cfg key (.binary b) = .binary b) := by
  refine ⟨?_, ?_, ?_, ?_, ?_, ?_, ?_, ?_, ?_, ?_⟩
  · intro l; simp [parseRelationshipAttributes, parseRelList_eq_map]
  · intro entries
    rw [show parseRelationshipAttributes valid cfg key (.obj entries) =
      (if jsTruthyOpt (jsGet entries "_bsontype") then .obj entries
        else .obj (parseRelEntries valid cfg key entries)) from by
      simp [parseRelationshipAttributes]]
    rw [parseRelEntries_eq_map]
  · unfold isRelationship relationshipGovernedSpec
    cases h : endsWithS key <;> simp [h]
  · intro s; simp [parseRelationshipAttributes, castRelationshipId]
  · intro n; simp [parseRelationshipAttributes, castRelationshipId]
  · intro b; simp [parseRelationshipAttributes, castRelationshipId]
  · simp [parseRelationshipAttributes, castRelationshipId]
  · simp [parseRelationshipAttributes, castRelationshipId]
  · intro s; simp [parseRelationshipAttributes]
  · intro b; simp [parseRelationshipAttributes]

mutual

theorem parseRel_idem (valid : String → Bool) (cfg : ResourceConfig) :
    ∀ (key : String) (v : JSValue),
      parseRelationshipAttributes valid cfg key
          (parseRelationshipAttributes valid cfg key v) =
        parseRelationshipAttributes valid cfg key v
  | key, .str s => by
      cases hrel : isRelationship cfg key <;> cases hv : valid s <;>
        simp [parseRelationshipAttributes, castRelationshipId, hrel, hv]
  | key, .num n => by
      cases hrel : isRelationship cfg key <;>
        simp [parseRelationshipAttributes, castRelationshipId, hrel]
  | key, .bool b => by
      cases hrel : isRelationship cfg key <;>
        simp [parseRelationshipAttributes, castRelationshipId, hrel]
  | key, .null => by
      cases hrel : isRelationship cfg key <;>
        simp [parseRelationshipAttributes, castRelationshipId, hrel]
  | key, .undefined => by
      cases hrel : isRelationship cfg key <;>
        simp [parseRelationshipAttributes, castRelationshipId, hrel]
  | key, .oid s => by simp [parseRelationshipAttributes]
  | key, .binary b => by simp [parseRelationshipAttributes]
  | key, .arr l => by
      simp [parseRelationshipAttributes, parseRelList_idem valid cfg key l]
  | key, .obj entries => by
      cases hb : jsTruthyOpt (jsGet entries "_bsontype")
      · cases hb2 : jsTruthyOpt
          (jsGet (parseRelEntries valid cfg key entries) "_bsontype") <;>
          simp [parseRelationshipAttributes, hb, hb2,
            parseRelEntries_idem valid cfg key entries]
      · simp [parseRelationshipAttributes, hb]

theorem parseRelList_idem (valid : String → Bool) (cfg : ResourceConfig) :
    ∀ (key : String) (l : List JSValue),
      parseRelList valid cfg key (parseRelList valid cfg key l) =
        parseRelList valid cfg key l
  | _, [] => by simp [parseRelList]
  | key, v :: rest => by
      simp [parseRelList, parseRel_idem valid cfg key v,
        parseRelList_idem valid cfg key rest]

theorem parseRelEntries_idem (valid : String → Bool) (cfg : ResourceConfig) :
    ∀ (key : String) (entries : List (String × JSValue)),
      parseRelEntries valid cfg key (parseRelEntries valid cfg key entries) =
        parseRelEntries valid cfg key entries
  | _, [] => by simp [parseRelEntries]
  | key, (k1, v1) :: rest => by
      simp [parseRelEntries,
        parseRel_idem valid cfg (if startsWithDollar k1 then key else k1) v1,
        parseRelEntries_idem valid cfg key rest]

end

/-- C4: relationship identifier casting is idempotent: resolving twice under
any governing key equals resolving once; a value already carrying the native
identifier tag is returned unchanged; and the whole-object resolver applied
twice equals the resolver applied once. -/
theorem c4_resolver_idempotent (valid : String → Bool) (cfg : ResourceConfig)
    (key : String) :
    (∀ v, parseRelationshipAttributes valid cfg key
        (parseRelationshipAttributes valid cfg key v) =
      parseRelationshipAttributes valid cfg key v) ∧
    (∀ s, parseRelationshipAttributes valid cfg key (.oid s) = .oid s) ∧
    (∀ given, parseObjectRelationships valid cfg
        (parseObjectRelationships valid cfg given) =
      parseObjectRelationships valid cfg given) := by
  refine ⟨parseRel_idem valid cfg key, ?_, ?_⟩
  · intro s; simp [parseRelationshipAttributes]
  · intro given
    unfold parseObjectRelationships
    rw [List.map_map]
    apply List.map_congr_left
    intro kv _
    simp [Function.comp, parseRel_idem valid cfg kv.1 kv.2]

theorem all_omitUndef (d : Doc) :
    (omitUndef d).all (fun kv => !isUndefinedVal kv.2) = true := by
  simp only [List.all_eq_true, omitUndef]
  intro kv hkv
  exact (List.mem_filter.mp hkv).2

theorem all_jsSet (d : Doc) (k : String) (v : JSValue) (p : String × JSValue → Bool)
    (hd : d.all p = true) (hv : p (k, v) = true) : (jsSet d k v).all p = true := by
  induction d with
  | nil => simp [jsSet, hv]
  | cons kv rest ih =>
      obtain ⟨k1, v1⟩ := kv
      simp only [List.all_cons, Bool.and_eq_true] at hd
      by_cases h1 : k1 = k
      · simp [jsSet, h1, hv, hd.2]
      · simp [jsSet, h1, hd.1, ih hd.2]

/-- C5 as stated is false for src/lib/mongoHandler.js: toMongoDocument calls
the identifier constructor with no argument, so the injected primary key is a
freshly minted ObjectID that does not depend on the public id of the
resource; two resources with different ids receive the same primary key under
the same fresh draw, and the key is not the identifier derived from the id. -/
theorem c5_counterexample :
    jsGet (toMongoDocument "f" [("id", JSValue.str "a")]) "_id" =
      jsGet (toMongoDocument "f" [("id", JSValue.str "b")]) "_id" ∧
    JSValue.str "a" ≠ JSValue.str "b" ∧
    jsGet (toMongoDocument "f" [("id", JSValue.str "a")]) "_id" ≠
      some (JSValue.oid "a") := by
  refine ⟨rfl, ?_, ?_⟩
  · intro h
    injection h with h2
    exact absurd h2 (by decide)
  · intro h
    have h0 : (some (JSValue.oid "f") : Option JSValue) = some (JSValue.oid "a") := h
    injection h0 with h1
    injection h1 with h2
    exact absurd h2 (by decide)

/-- C5 amended: the mapping to the stored document drops every field whose
value is undefined, and in src/lib/mongoHandler.js injects a freshly
generated native primary key that is independent of the public id of the
resource; only the src/unnamed/part 001 variant derives the primary key
one-to-one from the id property as a UUID binary. -/
theorem c5_document_mapping_amended (resource : Doc) (freshId : String) :
    (toMongoDocument freshId resource).all (fun kv => !isUndefinedVal kv.2) = true ∧
    (∀ k, jsGet (toMongoDocument freshId resource) k =
      if k = "_id" then some (.oid freshId) else jsGet (omitUndef resource) k) ∧
    (∀ other : Doc, jsGet (toMongoDocument freshId resource) "_id" =
      jsGet (toMongoDocument freshId other) "_id") ∧
    jsGet (toMongoDocumentP1 resource) "_id" =
      some (.binary (jsGetVal (omitUndef resource) "id")) ∧
    (∀ other : Doc,
      jsGet (toMongoDocumentP1 resource) "_id" =
        jsGet (toMongoDocumentP1 other) "_id" →
      jsGetVal (omitUndef resource) "id" = jsGetVal (omitUndef other) "id") := by
  refine ⟨?_, ?_, ?_, ?_, ?_⟩
  · exact all_jsSet _ _ _ _ (all_omitUndef resource) rfl
  · intro k
    by_cases hk : k = "_id"
    · subst hk
      simp [toMongoDocument, jsGet_jsSet_self]
    · simp [toMongoDocument, jsGet_jsSet_ne _ _ _ _ hk, hk]
  · intro other
    show jsGet (jsSet (omitUndef resource) "_id" (.oid freshId)) "_id" =
      jsGet (jsSet (omitUndef other) "_id" (.oid freshId)) "_id"
    rw [jsGet_jsSet_self, jsGet_jsSet_self]
  · exact jsGet_jsSet_self _ _ _
  · intro other h
    simp only [toMongoDocumentP1] at h
    rw [jsGet_jsSet_self, jsGet_jsSet_self] at h
    injection h with h1
    injection h1

/-- Witness for the amended C5 on concrete documents: the fresh primary key
is injected, the undefined-valued field is dropped, and the part 001 primary
key determines the id. -/
theorem c5_document_mapping_amended_witness :
    jsGet (toMongoDocument "ff" [("id", JSValue.str "u1"), ("x", JSValue.undefined)]) "_id" =
      some (JSValue.oid "ff") ∧
    jsGet (toMongoDocument "ff" [("id", JSValue.str "u1"), ("x", JSValue.undefined)]) "x" =
      none ∧
    jsGetVal (omitUndef [("id", JSValue.str "u1"), ("x", JSValue.undefined)]) "id" =
      jsGetVal (omitUndef [("id", JSValue.str "u1")]) "id" := by
  have h := c5_document_mapping_amended
    [("id", JSValue.str "u1"), ("x", JSValue.undefined)] "ff"
  refine ⟨?_, ?_, h.2.2.2.2 [("id", JSValue.str "u1")] rfl⟩
  · rw [h.2.1 "_id"]; rfl
  · rw [h.2.1 "x"]; rfl

/-- C6: update performs an atomic find-and-set keyed on exactly the native
primary key derived from the request id: a driver error yields the unknown
error; when no document has the key the not-found error is returned and the
collection is unchanged; when the first matching document exists it alone is
replaced by its patched version, which is also returned; fields absent from
the patch, or present with an undefined value, retain their prior values in
the patched document, and fields present with a defined value take the new
value. -/
theorem c6_update_semantics (coll : List Doc) (request : Request)
    (patchResource : Doc) :
    (∀ e, update (some e) coll request patchResource =
      (coll, .error (unknownError e))) ∧
    (coll.all (fun d => !docIdMatches (mongoUuid request.params.id) d) = true →
      update none coll request patchResource =
        (coll, .error (notFoundError request.params.type request.params.id))) ∧
    (∀ pre d post,
      coll = pre ++ d :: post →
      pre.all (fun x => !docIdMatches (mongoUuid request.params.id) x) = true →
      docIdMatches (mongoUuid request.params.id) d = true →
      update none coll request patchResource =
        (pre ++ setFields d (omitUndef patchResource) :: post,
          .ok (setFields d (omitUndef patchResource)))) ∧
    (∀ d k, jsGet patchResource k = none →
      jsGet (setFields d (omitUndef patchResource)) k = jsGet d k) ∧
    (∀ d k, (patchResource.map Prod.fst).Nodup →
      jsGet patchResource k = some .undefined →
      jsGet (setFields d (omitUndef patchResource)) k = jsGet d k) ∧
    (∀ d k v, (patchResource.map Prod.fst).Nodup →
      jsGet patchResource k = some v → v ≠ .undefined →
      jsGet (setFields d (omitUndef patchResource)) k = some v) := by
  refine ⟨fun e => rfl, ?_, ?_, ?_, ?_, ?_⟩
  · intro h
    simp [update, findOneAndUpdateSet_all_false _ _ coll h]
  · intro pre d post hcoll hpre hd
    subst hcoll
    simp [update, findOneAndUpdateSet_split _ _ d post hd pre hpre]
  · intro d k h
    exact jsGet_setFields_not_mem _ _ (jsGet_omitUndef_of_none _ _ h) d
  · intro d k hnd h
    exact jsGet_setFields_not_mem _ _ (jsGet_omitUndef_of_undefinedVal _ _ hnd h) d
  · intro d k v hnd h hv
    exact jsGet_setFields_mem _ _ _ (omitUndef_keys_nodup _ hnd)
      (jsGet_omitUndef_of_defined _ _ _ h hv) d

/-- Witness for C6 on a concrete collection: the patch overwrites the one
specified field, the undefined-valued patch field and the unspecified field
keep their prior values, and the post-update document is returned. -/
theorem c6_update_semantics_witness :
    update none
        [[("_id", JSValue.oid "bb"), ("a", JSValue.str "1"), ("b", JSValue.str "2")]]
        ⟨⟨"items", "bb"⟩⟩ [("a", JSValue.str "9"), ("c", JSValue.undefined)] =
      ([[("_id", JSValue.oid "bb"), ("a", JSValue.str "9"), ("b", JSValue.str "2")]],
        .ok [("_id", JSValue.oid "bb"), ("a", JSValue.str "9"), ("b", JSValue.str "2")]) ∧
    jsGet (setFields [("_id", JSValue.oid "bb"), ("a", JSValue.str "1"), ("b", JSValue.str "2")]
        (omitUndef [("a", JSValue.str "9"), ("c", JSValue.undefined)])) "b" =
      some (JSValue.str "2") ∧
    jsGet (setFields [("_id", JSValue.oid "bb"), ("a", JSValue.str "1"), ("b", JSValue.str "2")]
        (omitUndef [("a", JSValue.str "9"), ("c", JSValue.undefined)])) "a" =
      some (JSValue.str "9") ∧
    jsGet (setFields [("_id", JSValue.oid "bb"), ("a", JSValue.str "1"), ("b", JSValue.str "2")]
        (omitUndef [("a", JSValue.str "9"), ("c", JSValue.undefined)])) "c" =
      jsGet [("_id", JSValue.oid "bb"), ("a", JSValue.str "1"), ("b", JSValue.str "2")] "c" := by
  have h := c6_update_semantics
    [[("_id", JSValue.oid "bb"), ("a", JSValue.str "1"), ("b", JSValue.str "2")]]
    ⟨⟨"items", "bb"⟩⟩ [("a", JSValue.str "9"), ("c", JSValue.undefined)]
  have h3 := h.2.2.1 []
    [("_id", JSValue.oid "bb"), ("a", JSValue.str "1"), ("b", JSValue.str "2")] []
    rfl rfl (by decide)
  refine ⟨h3, ?_, ?_, ?_⟩
  · exact (h.2.2.2.1
      [("_id", JSValue.oid "bb"), ("a", JSValue.str "1"), ("b", JSValue.str "2")]
      "b" rfl).trans rfl
  · exact h.2.2.2.2.2
      [("_id", JSValue.oid "bb"), ("a", JSValue.str "1"), ("b", JSValue.str "2")]
      "a" (JSValue.str "9") (by decide) rfl (fun hh => JSValue.noConfusion hh)
  · exact h.2.2.2.2.1
      [("_id", JSValue.oid "bb"), ("a", JSValue.str "1"), ("b", JSValue.str "2")]
      "c" (by decide) rfl

/-- C7: delete removes by the native primary key and returns the not-found
payload exactly when zero documents were removed: a driver error yields the
unknown error instead; a collection with no matching document is unchanged
and yields the not-found error; deleting an existing document removes exactly
it with a deleted count of one, and a subsequent find on the same id yields
the not-found error. -/
theorem c7_delete_semantics (coll : List Doc) (request : Request) :
    (∀ e, deleteOp (some e) coll request = (coll, .error (unknownError e))) ∧
    (coll.all (fun d => !docIdMatches (mongoUuid request.params.id) d) = true →
      deleteOp none coll request =
        (coll, .error (notFoundError request.params.type request.params.id))) ∧
    (∀ pre d post,
      coll = pre ++ d :: post →
      pre.all (fun x => !docIdMatches (mongoUuid request.params.id) x) = true →
      docIdMatches (mongoUuid request.params.id) d = true →
      deleteOp none coll request = (pre ++ post, .ok { deletedCount := 1 }) ∧
      (post.all (fun x => !docIdMatches (mongoUuid request.params.id) x) = true →
        find none (pre ++ post) request =
          .error (notFoundError request.params.type request.params.id))) := by
  refine ⟨fun e => rfl, ?_, ?_⟩
  · intro h
    simp [deleteOp, deleteOneDoc_all_false _ coll h]
  · intro pre d post hcoll hpre hd
    subst hcoll
    refine ⟨by simp [deleteOp, deleteOneDoc_split _ d post hd pre hpre], ?_⟩
    intro hpost
    have hall : (pre ++ post).all
        (fun x => !docIdMatches (mongoUuid request.params.id) x) = true := by
      rw [List.all_append, hpre, hpost]; rfl
    have hnone := findOneDoc_all_false
      (fun x => docIdMatches (mongoUuid request.params.id) x &&
        docFieldEq x "isSoftDeleted" (.bool false)) (pre ++ post)
      (all_not_of_and_left _ _ _ hall)
    simp [find, hnone]

/-- Witness for C7 on a concrete collection: deleting the only document
succeeds with a deleted count of one, finding it afterwards yields the
not-found payload, and deleting a nonexistent id yields the not-found
payload. -/
theorem c7_delete_semantics_witness :
    deleteOp none [[("_id", JSValue.oid "aa")]] ⟨⟨"tags", "aa"⟩⟩ =
      ([], .ok { deletedCount := 1 }) ∧
    find none [] ⟨⟨"tags", "aa"⟩⟩ = .error (notFoundError "tags" "aa") ∧
    deleteOp none [] ⟨⟨"tags", "aa"⟩⟩ =
      ([], .error (notFoundError "tags" "aa")) := by
  have h := c7_delete_semantics [[("_id", JSValue.oid "aa")]] ⟨⟨"tags", "aa"⟩⟩
  have h3 := h.2.2 [] [("_id", JSValue.oid "aa")] [] rfl rfl (by decide)
  exact ⟨h3.1, h3.2 rfl, (c7_delete_semantics [] ⟨⟨"tags", "aa"⟩⟩).2.1 rfl⟩

/-- C10: in MongoStore.prototype.find a driver error is delivered to the
caller as the not-found payload with status 404 and code ENOTFOUND, the very
payload produced when the document is genuinely absent, and never as the
unknown error with status 500 and code EUNKNOWN. -/
theorem c10_find_store_failure_masked_as_not_found :
    ∀ (e : JSValue) (coll : List Doc) (request : Request),
      find (some e) coll request =
        .error (notFoundError request.params.type request.params.id) ∧
      find none [] request =
        .error (notFoundError request.params.type request.params.id) ∧
      (notFoundError request.params.type request.params.id).status = "404" ∧
      (notFoundError request.params.type request.params.id).code = "ENOTFOUND" ∧
      (notFoundError request.params.type request.params.id).status ≠ "500" ∧
      (notFoundError request.params.type request.params.id).code ≠ "EUNKNOWN" := by
  intro e coll request
  refine ⟨rfl, rfl, rfl, rfl, by simp [notFoundError], by simp [notFoundError]⟩

/-- C8 is wrong about the code and the structured-error intent is clear: the
search completion handler passes the function MongoStore. unknownError itself,
uninvoked, to the callback instead of a structured payload; in create a failed
post-insert read passes the insert error variable, which is null on that path,
and a missing re-read result passes a bare string; only the insert failure
path builds the structured payload. -/
theorem c8_error_shape_code_bug :
    searchCallbackArg (some (JSValue.str "query execution failed")) =
      some .fnValue ∧
    isStructuredPayload
      (searchCallbackArg (some (JSValue.str "query execution failed"))) = false ∧
    createCallbackArg none (some (JSValue.str "post insert read failed")) none =
      some .jsNull ∧
    isStructuredPayload
      (createCallbackArg none (some (JSValue.str "post insert read failed")) none) = false ∧
    createCallbackArg none none none =
      some (.rawStr "Could not find document after insert") ∧
    isStructuredPayload (createCallbackArg none none none) = false ∧
    createCallbackArg (some (JSValue.str "duplicate key")) none none =
      some (.payload (unknownError (JSValue.str "duplicate key"))) :=
  ⟨rfl, rfl, rfl, rfl, rfl, rfl, rfl⟩

/-- C9 as stated is false: in the close handler the probe callback ignores
its error argument, so readiness flips back to true even when the probe fires
with an error while the connection is still down. -/
theorem c9_counterexample :
    ¬ ((connStep { ready := false }
        (.probeCallbackFires (some (JSValue.str "connection refused")))).1.ready = false) := by
  simp [connStep]

/-- C9 amended: a failed connect attempt schedules exactly one initialise
retry after a fixed five-second delay; on the connection-closed event the
readiness flag flips to false immediately and a single probe read is issued;
the readiness flag flips back to true when the probe callback fires, whether
or not the probe succeeded. -/
theorem c9_lifecycle_amended (s : ConnState) (e : Option JSValue) :
    connStep s .connectFailure = (s, [.retryInitialise 5000], 0) ∧
    (connStep s .connectFailure).2.1.length = 1 ∧
    (connStep s .closeEvent).1.ready = false ∧
    (connStep s .closeEvent).2.2 = 1 ∧
    (connStep s (.probeCallbackFires e)).1.ready = true ∧
    (connStep s .connectSuccess).1.ready = true :=
  ⟨rfl, rfl, rfl, rfl, rfl, rfl⟩

end MongoStore
